import Mathlib

/-!
Verification of the streaming FLAC decoder bridge (src/flac.cpp).

The C++ `struct Data` holds one decode session: the input queue of fed byte
chunks (`inbuffers`), the outbound message list (`messages`), the current
negotiated format, and the stop / needs-done flags.  We embed the session
state as the structure `Data` below; machine bytes are `Nat` values < 256,
32-bit samples are `Int` values reduced mod 2^32 where bytes are extracted.
Cross-thread effects (uv_async_send, uv_cond_signal, uv_thread_join,
decoder finish/delete) are modelled as counters so theorems can speak about
how often they happen.
-/

set_option maxHeartbeats 1000000

/-- One fed chunk: `buffer` of bytes plus the consumed offset.
The C++ field is named `where`; that is a Lean keyword, so we call it
`whereOff`. -/
structure Data.BufferData where
  whereOff : Nat
  buffer : List Nat
deriving Repr, DecidableEq

/-- Negotiated stream format, as in `Data::Format`. -/
structure Data.Format where
  sampleRate : Nat
  channels : Nat
  bitsPerSample : Nat
deriving Repr, DecidableEq

/-- Parsed vorbis-comment tags, as in `Data::Metadata`. -/
structure Data.Metadata where
  tags : List (List Char × List Char)
deriving Repr, DecidableEq

/-- Outbound message, mirroring `Data::Message` (a type tag plus a
`std::variant<Format, Metadata, std::string>` payload). -/
inductive Data.Message where
  | Format (fmt : Data.Format)
  | Metadata (meta : Data.Metadata)
  | Data (bytes : List Nat)
  | Done
  | End
deriving Repr, DecidableEq

/-- Session state of `struct Data` in flac.cpp.  `decoder` records whether
the decoder handle is non-null; `asyncSends`, `condSignals`, `joined` and
`freed` count the uv_async_send / uv_cond_signal / uv_thread_join /
decoder-release effects. -/
structure Data where
  stopped : Bool
  needsDone : Bool
  decoder : Bool
  inbuffers : List Data.BufferData
  messages : List Data.Message
  currentFormat : Data.Format
  asyncSends : Nat
  condSignals : Nat
  joined : Nat
  freed : Nat
  openCount : Nat
  callbackSet : Bool
deriving Repr, DecidableEq

/-- A decoded frame as handed to the write callback: the `FLAC__Frame`
header fields the code reads, plus the channel-major sample planes
(`samples j i` is `buffer[j][i]`, channel `j`, intra-frame sample `i`). -/
structure Frame where
  blocksize : Nat
  channels : Nat
  sampleRate : Nat
  bitsPerSample : Nat
  samples : Nat → Nat → Int

/-- Status returned by the read callback
(`FLAC__StreamDecoderReadStatus`). -/
inductive ReadStatus where
  | Continue
  | EndOfStream
deriving Repr, DecidableEq

/-- Status returned by the write callback
(`FLAC__StreamDecoderWriteStatus`). -/
inductive WriteStatus where
  | Continue
  | Abort
deriving Repr, DecidableEq

/-- A metadata block as handed to the metadata callback: either a vorbis
comment block (vendor string plus comment entries, each a raw byte/char
sequence) or a block of any other type. -/
inductive StreamMetadata where
  | vorbisComment (vendorString : List Char) (comments : List (List Char))
  | other (metaType : Nat)

namespace Data

/-- State right after a successful `Open`: fresh decoder, zeroed format
(`memset` in the constructor), no pending data or messages. -/
def openData : Data :=
  { stopped := false, needsDone := false, decoder := true, inbuffers := [],
    messages := [], currentFormat := ⟨0, 0, 0⟩, asyncSends := 0,
    condSignals := 0, joined := 0, freed := 0, openCount := 1,
    callbackSet := true }

/-- Bytes of a chunk not yet consumed. -/
def BufferData.remBytes (c : BufferData) : List Nat :=
  c.buffer.drop c.whereOff

/-- All bytes remaining in the queue, front first. -/
def queueBytes (q : List BufferData) : List Nat :=
  q.flatMap BufferData.remBytes

/-- The drain loop of `Data::readCallback` (flac.cpp lines 142-157): copy up
to `rem` bytes from the front of `inbuffers`, erasing a chunk exactly when
it is fully consumed, otherwise advancing its `where` offset.  Returns the
copied bytes and the remaining queue. -/
def readInto : List BufferData → Nat → List Nat × List BufferData
  | [], _ => ([], [])
  | front :: rest, rem =>
    if rem = 0 then ([], front :: rest)
    else
      let avail := front.buffer.length - front.whereOff
      let toread := min avail rem
      if toread = avail then
        let r := readInto rest (rem - toread)
        ((front.buffer.drop front.whereOff).take toread ++ r.1, r.2)
      else
        ((front.buffer.drop front.whereOff).take toread,
         { front with whereOff := front.whereOff + toread } :: rest)

/-- One externally observable queue operation: `Feed` pushing a chunk, or
the read callback draining up to `maxBytes`. -/
inductive QueueOp where
  | push (bytes : List Nat)
  | read (maxBytes : Nat)

/-- History of a run of queue operations: the queue itself, the
concatenation of all pushed bytes, and of all bytes handed to the decoder. -/
structure QueueRun where
  queue : List BufferData
  pushed : List Nat
  handed : List Nat

/-- Effect of one operation: `push` appends a fresh chunk with offset 0
(`Feed` ignores empty buffers); `read` runs the drain loop. -/
def applyQueueOp (st : QueueRun) : QueueOp → QueueRun
  | .push b =>
    if b.length = 0 then st
    else { st with queue := st.queue ++ [⟨0, b⟩], pushed := st.pushed ++ b }
  | .read mx =>
    { st with queue := (readInto st.queue mx).2,
              handed := st.handed ++ (readInto st.queue mx).1 }

/-- Run a sequence of interleaved pushes and reads from the empty queue. -/
def runQueueOps (ops : List QueueOp) : QueueRun :=
  ops.foldl applyQueueOp ⟨[], [], []⟩

/-- Message classifiers and counters. -/
def isDoneMsg : Message → Bool
  | .Done => true
  | _ => false

def isEndMsg : Message → Bool
  | .End => true
  | _ => false

def isFormatMsg : Message → Bool
  | .Format _ => true
  | _ => false

def doneCount (l : List Message) : Nat := l.countP isDoneMsg

def endCount (l : List Message) : Nat := l.countP isEndMsg

def formatCount (l : List Message) : Nat := l.countP isFormatMsg

/-- The loop guard of the read callback's wait loop (flac.cpp line 127):
`!data->stopped && data->inbuffers.empty()`. -/
def starving (s : Data) : Bool :=
  !s.stopped && s.inbuffers.isEmpty

/-- Body of the wait loop before blocking (flac.cpp lines 129-133): if a
`Done` is owed, clear the flag, queue the `Done` message and wake the
consumer loop. -/
def emitStarveDone (s : Data) : Data :=
  if s.needsDone then
    { s with needsDone := false,
             messages := s.messages ++ [Message.Done],
             asyncSends := s.asyncSends + 1 }
  else s

/-- What another thread can do while the worker sits in `uv_cond_wait`:
`Feed` appends a chunk and signals (flac.cpp lines 501-504), `close` sets
the stop flag and signals (lines 279-282), or the wakeup is spurious. -/
inductive ExtAction where
  | feed (bytes : List Nat)
  | stop
  | spurious

def applyExt (a : ExtAction) (s : Data) : Data :=
  match a with
  | .feed b =>
    if b.length = 0 then s
    else { s with inbuffers := s.inbuffers ++ [⟨0, b⟩],
                  condSignals := s.condSignals + 1 }
  | .stop => { s with stopped := true, condSignals := s.condSignals + 1 }
  | .spurious => s

/-- The wait loop of `Data::readCallback` (flac.cpp lines 127-135),
parameterised by the external actions that arrive at each `uv_cond_wait`.
Returns the state and whether the loop exited (`false` means the worker is
still blocked after all listed wakeups). -/
def waitLoop (s : Data) : List ExtAction → Data × Bool
  | [] => if starving s then (emitStarveDone s, false) else (s, true)
  | w :: ws =>
    if starving s then waitLoop (applyExt w (emitStarveDone s)) ws
    else (s, true)

/-- `Data::readCallback` (flac.cpp lines 124-159): wait while starving;
on stop report end-of-stream with zero bytes; otherwise set the needs-done
flag and drain up to `want` bytes from the input queue.  `none` means the
callback is still blocked in the wait loop. -/
def readCallback (s : Data) (want : Nat) (wakes : List ExtAction) :
    Option (Data × List Nat × ReadStatus) :=
  match waitLoop s wakes with
  | (_, false) => none
  | (s1, true) =>
    if s1.stopped then some (s1, [], ReadStatus.EndOfStream)
    else
      some ({ s1 with needsDone := true,
                      inbuffers := (readInto s1.inbuffers want).2 },
            (readInto s1.inbuffers want).1, ReadStatus.Continue)

/-- Bit-depth normalization (flac.cpp lines 103-105, 117-119, 168-170):
a source depth of 24 is reported and laid out as 32. -/
def normBps (bps : Nat) : Nat :=
  if bps = 24 then 32 else bps

/-- The format a frame announces, after normalization. -/
def frameFormat (frame : Frame) : Format :=
  ⟨frame.sampleRate, frame.channels, normBps frame.bitsPerSample⟩

/-- `Data::formatChanged` (flac.cpp lines 101-111). -/
def formatChanged (s : Data) (frame : Frame) : Bool :=
  (frame.sampleRate != s.currentFormat.sampleRate)
  || (frame.channels != s.currentFormat.channels)
  || (normBps frame.bitsPerSample != s.currentFormat.bitsPerSample)

/-- `Data::pushFormat` (flac.cpp lines 113-122): store the new format and
queue a `Format` message. -/
def pushFormat (s : Data) (frame : Frame) : Data :=
  { s with currentFormat := frameFormat frame,
           messages := s.messages ++ [Message.Format (frameFormat frame)] }

/-- Byte `k` (little-endian) of the 32-bit representation of sample `v`:
what `*(ptr++) = buffer[j][i] >> (8*k)` stores through an `unsigned char`. -/
def byteOf (v : Int) (k : Nat) : Nat :=
  ((v % (2 ^ 32)).toNat / 2 ^ (8 * k)) % 256

/-- The `switch (frame->header.bits_per_sample)` in the write callback
(flac.cpp lines 179-199), appending to the bytes written so far; an
unhandled depth writes nothing. -/
def writeSample (bps : Nat) (v : Int) (acc : List Nat) : List Nat :=
  if bps = 8 then acc ++ [byteOf v 0]
  else if bps = 16 then acc ++ [byteOf v 0, byteOf v 1]
  else if bps = 24 then acc ++ [0, byteOf v 0, byteOf v 1, byteOf v 2]
  else if bps = 32 then acc ++ [byteOf v 0, byteOf v 1, byteOf v 2, byteOf v 3]
  else acc

/-- The nested sample/channel loop of the write callback (flac.cpp lines
177-201): samples outer, channels inner, writing sequentially from the
start of the output buffer. -/
def writeLoop (frame : Frame) : List Nat :=
  (List.range frame.blocksize).foldl
    (fun acc i =>
      (List.range frame.channels).foldl
        (fun acc2 j => writeSample frame.bitsPerSample (frame.samples j i) acc2)
        acc)
    []

/-- The full output buffer of one frame: `dt` is pre-sized to
`blocksize * channels * (bps/8)` zero bytes (flac.cpp lines 171-175) and the
loop overwrites it from the front, so unwritten positions stay zero. -/
def writeFrame (frame : Frame) : List Nat :=
  let frameSamples :=
    frame.blocksize * frame.channels * (normBps frame.bitsPerSample / 8)
  writeLoop frame ++ List.replicate (frameSamples - (writeLoop frame).length) 0

/-- `Data::writeCallback` (flac.cpp lines 161-211): push a `Format` message
first if the frame's format differs from the current one, then the frame's
byte payload unless it is empty; always continue decoding. -/
def writeCallback (s : Data) (frame : Frame) : Data × WriteStatus :=
  let s1 :=
    if formatChanged s frame then
      let sf := pushFormat s frame
      { sf with asyncSends := sf.asyncSends + 1 }
    else s
  let dt := writeFrame frame
  let s2 :=
    if dt.isEmpty then s1
    else { s1 with messages := s1.messages ++ [Message.Data dt],
                   asyncSends := s1.asyncSends + 1 }
  (s2, WriteStatus.Continue)

/-- The `split` lambda of `Data::metadataCallback` (flac.cpp lines
220-227): `memchr` for the first `=`; no `=` drops the entry, otherwise
the part before it is the key and the part after it the value. -/
def splitEntry (entry : List Char) : Option (List Char × List Char) :=
  match entry.findIdx? (fun c => c == '=') with
  | none => none
  | some i => some (entry.take i, entry.drop (i + 1))

/-- `Data::metadataCallback` (flac.cpp lines 213-237): only vorbis-comment
blocks produce a message; the vendor string is split first, then each
comment in order, and all surviving pairs go out in one `Metadata`
message. -/
def metadataCallback (s : Data) (metadata : StreamMetadata) : Data :=
  match metadata with
  | .vorbisComment vendorString comments =>
    { s with
        messages := s.messages
          ++ [Message.Metadata ⟨(vendorString :: comments).filterMap splitEntry⟩],
        asyncSends := s.asyncSends + 1 }
  | .other _ => s

/-- Observable effect of one `FLAC__stream_decoder_process_single` call on
the session, as seen by the worker loop: the callbacks run during the step
may append messages, rewrite the flags, queue and format, and send wakes;
`eos` records whether the decoder now reports
`FLAC__STREAM_DECODER_END_OF_STREAM`.  The stop flag can only be turned on
(only `close` writes it, to `true`). -/
structure DecodeStep where
  appended : List Message
  needsDone : Bool
  stopped : Bool
  inbuffers : List BufferData
  currentFormat : Format
  sends : Nat
  eos : Bool

def applyStep (s : Data) (st : DecodeStep) : Data :=
  { s with messages := s.messages ++ st.appended,
           needsDone := st.needsDone,
           stopped := s.stopped || st.stopped,
           inbuffers := st.inbuffers,
           currentFormat := st.currentFormat,
           asyncSends := s.asyncSends + st.sends }

/-- The end-of-stream branch of `Data::flacThread` (flac.cpp lines
255-264): flush an owed `Done`, queue the `End` message and wake the
consumer loop. -/
def eosExit (s : Data) : Data :=
  let s2 :=
    if s.needsDone then
      { s with needsDone := false, messages := s.messages ++ [Message.Done] }
    else s
  { s2 with messages := s2.messages ++ [Message.End],
            asyncSends := s2.asyncSends + 1 }

/-- The worker loop of `Data::flacThread` (flac.cpp lines 243-267), driven
by the effects of successive decode steps: after each step, exit if
stopped; else on end-of-stream flush an owed `Done`, queue `End`, notify
and exit.  `none` means the loop is still running after the listed steps. -/
def flacThread : Data → List DecodeStep → Option Data
  | _, [] => none
  | s, st :: rest =>
    if (applyStep s st).stopped then some (applyStep s st)
    else if st.eos then some (eosExit (applyStep s st))
    else flacThread (applyStep s st) rest

/-- `Data::close` (flac.cpp lines 269-293): a no-op when the decoder handle
is already null; otherwise drop the open count, and unless already stopped
set the stop flag, signal the worker and join it; then release the callback
registration and the decoder. -/
def close (s : Data) : Data :=
  if s.decoder = false then s
  else
    let s1 := { s with openCount := s.openCount - 1 }
    let s2 :=
      if s1.stopped = false then
        { s1 with stopped := true, condSignals := s1.condSignals + 1,
                  joined := s1.joined + 1 }
      else s1
    { s2 with callbackSet := false, freed := s2.freed + 1, decoder := false }

/-- `Data::asyncCallback` (flac.cpp lines 307-382): swap out the pending
message list and deliver each message in order; delivering `End` runs
`close` before invoking the consumer callback.  Returns the state after
delivery and the delivered messages in order. -/
def asyncCallback (s : Data) : Data × List Message :=
  (s.messages.foldl
     (fun acc m =>
       match m with
       | Message.End => close acc
       | _ => acc)
     { s with messages := [] },
   s.messages)

end Data

/-- Error reported synchronously by `Feed` (flac.cpp lines 467-507). -/
inductive FeedError where
  | decoderNotOpen
  | needsBuffer
deriving Repr, DecidableEq

/-- `NAN_METHOD(Feed)` after handle unwrapping (flac.cpp lines 482-507):
fails if the decoder handle is null, fails if the argument is not a byte
buffer, ignores an empty buffer, and otherwise appends a chunk with offset
0 and signals the worker's condition variable.  The returned state is the
session after the call; an error leaves it untouched. -/
def Feed (s : Data) (arg : Option (List Nat)) : Data × Option FeedError :=
  if s.decoder = false then (s, some FeedError.decoderNotOpen)
  else
    match arg with
    | none => (s, some FeedError.needsBuffer)
    | some bytes =>
      if bytes.length = 0 then (s, none)
      else ({ s with inbuffers := s.inbuffers ++ [⟨0, bytes⟩],
                     condSignals := s.condSignals + 1 }, none)

/-- The per-sample byte layout the amended C1 claim describes: little-endian
bytes of the sample value sized by the source depth, except that a 24-bit
sample occupies 4 bytes whose first (least-significant) byte is zero,
followed by the sample's three little-endian bytes. -/
def specSampleBytes (bps : Nat) (v : Int) : List Nat :=
  if bps = 8 then (List.range 1).map (Data.byteOf v)
  else if bps = 16 then (List.range 2).map (Data.byteOf v)
  else if bps = 24 then 0 :: (List.range 3).map (Data.byteOf v)
  else if bps = 32 then (List.range 4).map (Data.byteOf v)
  else []

/-- The frame payload the spec describes: for each sample index, all
channels in order, each sample contributing its `specSampleBytes`. -/
def specFramePayload (frame : Frame) : List Nat :=
  (List.range frame.blocksize).flatMap (fun i =>
    (List.range frame.channels).flatMap (fun j =>
      specSampleBytes frame.bitsPerSample (frame.samples j i)))

namespace Data

theorem readInto_nil (rem : Nat) : readInto [] rem = ([], []) := rfl

/-- `readInto` neither duplicates nor drops a byte: what it hands out,
prepended to what remains, is exactly what was in the queue. -/
theorem readInto_no_loss (q : List BufferData) (rem : Nat) :
    (readInto q rem).1 ++ queueBytes (readInto q rem).2 = queueBytes q := by
  induction q generalizing rem with
  | nil => simp [readInto, queueBytes]
  | cons front rest ih =>
    by_cases h0 : rem = 0
    · simp [readInto, h0]
    · by_cases hle : front.buffer.length - front.whereOff ≤ rem
      · simp only [readInto, if_neg h0, Nat.min_eq_left hle, eq_self_iff_true,
          if_true]
        have htake : (front.buffer.drop front.whereOff).take
            (front.buffer.length - front.whereOff) = front.buffer.drop front.whereOff := by
          apply List.take_of_length_le
          simp [List.length_drop]
        rw [htake]
        simp only [queueBytes, List.flatMap_cons, List.append_assoc,
          BufferData.remBytes]
        congr 1
        exact ih (rem - (front.buffer.length - front.whereOff))
      · have hlt : rem < front.buffer.length - front.whereOff := by omega
        have hmin : min (front.buffer.length - front.whereOff) rem = rem :=
          Nat.min_eq_right (Nat.le_of_lt hlt)
        have hne : rem ≠ front.buffer.length - front.whereOff := by omega
        simp only [readInto, if_neg h0, hmin, if_neg hne]
        simp only [queueBytes, List.flatMap_cons, BufferData.remBytes]
        rw [← List.append_assoc]
        congr 1
        rw [← List.drop_drop, List.take_append_drop]

/-- `readInto` returns exactly `min rem (available bytes)` bytes. -/
theorem readInto_length (q : List BufferData) (rem : Nat) :
    (readInto q rem).1.length = min rem (queueBytes q).length := by
  induction q generalizing rem with
  | nil => simp [readInto, queueBytes]
  | cons front rest ih =>
    by_cases h0 : rem = 0
    · simp [readInto, h0]
    · by_cases hle : front.buffer.length - front.whereOff ≤ rem
      · simp only [readInto, if_neg h0, Nat.min_eq_left hle, eq_self_iff_true,
          if_true, List.length_append, List.length_take, List.length_drop, ih]
        simp only [queueBytes, List.flatMap_cons, List.length_append,
          BufferData.remBytes, List.length_drop]
        omega
      · have hlt : rem < front.buffer.length - front.whereOff := by omega
        have hmin : min (front.buffer.length - front.whereOff) rem = rem :=
          Nat.min_eq_right (Nat.le_of_lt hlt)
        have hne : rem ≠ front.buffer.length - front.whereOff := by omega
        simp only [readInto, if_neg h0, hmin, if_neg hne, List.length_take,
          List.length_drop]
        simp only [queueBytes, List.flatMap_cons, List.length_append,
          BufferData.remBytes, List.length_drop]
        omega

/-- If the first chunk has more unread bytes than requested, `readInto`
only advances its offset (by the full, positive request). -/
theorem readInto_advance_front (front : BufferData) (rest : List BufferData)
    (rem : Nat) (h0 : rem ≠ 0)
    (hlt : rem < front.buffer.length - front.whereOff) :
    readInto (front :: rest) rem
      = ((front.buffer.drop front.whereOff).take rem,
         { front with whereOff := front.whereOff + rem } :: rest) := by
  have hmin : min (front.buffer.length - front.whereOff) rem = rem :=
    Nat.min_eq_right (Nat.le_of_lt hlt)
  have hne : rem ≠ front.buffer.length - front.whereOff := by omega
  simp [readInto, if_neg h0, hmin, if_neg hne]

/-- If the request covers all unread bytes of the first chunk, `readInto`
removes the chunk from the queue and keeps draining. -/
theorem readInto_erase_front (front : BufferData) (rest : List BufferData)
    (rem : Nat) (h0 : rem ≠ 0)
    (hge : front.buffer.length - front.whereOff ≤ rem) :
    readInto (front :: rest) rem
      = ((front.buffer.drop front.whereOff)
           ++ (readInto rest (rem - (front.buffer.length - front.whereOff))).1,
         (readInto rest (rem - (front.buffer.length - front.whereOff))).2) := by
  simp only [readInto, if_neg h0, Nat.min_eq_left hge, eq_self_iff_true, if_true]
  rw [List.take_of_length_le (by simp [List.length_drop])]

theorem queueBytes_push (q : List BufferData) (b : List Nat) :
    queueBytes (q ++ [⟨0, b⟩]) = queueBytes q ++ b := by
  simp [queueBytes, BufferData.remBytes]

theorem applyQueueOp_inv (st : QueueRun)
    (h : st.handed ++ queueBytes st.queue = st.pushed) (op : QueueOp) :
    (applyQueueOp st op).handed ++ queueBytes (applyQueueOp st op).queue
      = (applyQueueOp st op).pushed := by
  cases op with
  | push b =>
    by_cases hb : b.length = 0
    · simpa [applyQueueOp, hb] using h
    · simp only [applyQueueOp, hb, if_neg, if_false, queueBytes_push]
      rw [← List.append_assoc, h]
  | read mx =>
    simp only [applyQueueOp, List.append_assoc, readInto_no_loss, h]

/-- Over any interleaving of pushes and reads, the bytes handed out,
followed by the bytes still queued, are exactly the pushed bytes in push
order; in particular the handed-out stream is a prefix of the pushed
stream. -/
theorem runQueueOps_inv (ops : List QueueOp) :
    (runQueueOps ops).handed ++ queueBytes (runQueueOps ops).queue
      = (runQueueOps ops).pushed := by
  suffices h : ∀ st : QueueRun, st.handed ++ queueBytes st.queue = st.pushed →
      (ops.foldl applyQueueOp st).handed
          ++ queueBytes (ops.foldl applyQueueOp st).queue
        = (ops.foldl applyQueueOp st).pushed by
    exact h ⟨[], [], []⟩ (by simp [queueBytes])
  induction ops with
  | nil => intro st h; simpa using h
  | cons op rest ih =>
    intro st h
    exact ih (applyQueueOp st op) (applyQueueOp_inv st h op)

end Data

/-- C5: Over every interleaving of `Feed` pushes and read-callback drains,
`readInto` copies up to `maxBytes` from the front of the queue (returning 0
bytes on an empty queue and exactly `min maxBytes available` otherwise), no
pushed byte is duplicated or dropped (handed-out bytes plus remaining queue
bytes reconstruct the pushes in order, so the handed-out stream is a prefix
of the pushed stream), a chunk's offset strictly increases on a partial
read, and a chunk is removed exactly when fully drained. -/
theorem c5_input_queue_faithful :
    (∀ mx, Data.readInto [] mx = ([], [])) ∧
    (∀ q mx, (Data.readInto q mx).1.length = min mx (Data.queueBytes q).length) ∧
    (∀ q mx, (Data.readInto q mx).1 ++ Data.queueBytes (Data.readInto q mx).2
        = Data.queueBytes q) ∧
    (∀ ops, ∃ rest,
        (Data.runQueueOps ops).handed ++ rest = (Data.runQueueOps ops).pushed) ∧
    (∀ front queue mx, mx ≠ 0 → mx < front.buffer.length - front.whereOff →
        Data.readInto (front :: queue) mx
          = ((front.buffer.drop front.whereOff).take mx,
             { front with whereOff := front.whereOff + mx } :: queue)) ∧
    (∀ front queue mx, mx ≠ 0 → front.buffer.length - front.whereOff ≤ mx →
        (Data.readInto (front :: queue) mx).2
          = (Data.readInto queue
              (mx - (front.buffer.length - front.whereOff))).2) := by
  refine ⟨Data.readInto_nil, Data.readInto_length, Data.readInto_no_loss,
    ?_, Data.readInto_advance_front, ?_⟩
  · intro ops
    exact ⟨Data.queueBytes (Data.runQueueOps ops).queue, Data.runQueueOps_inv ops⟩
  · intro front queue mx h0 hge
    rw [Data.readInto_erase_front front queue mx h0 hge]

/-- Witness for C5 at concrete inputs: a 3-byte chunk read with
`maxBytes = 2` hands out 2 bytes and advances the offset to 2; reading the
rest removes the chunk. -/
theorem c5_input_queue_faithful_witness :
    Data.readInto [⟨0, [5, 6, 7]⟩] 2 = ([5, 6], [⟨2, [5, 6, 7]⟩]) ∧
    (Data.readInto [⟨2, [5, 6, 7]⟩] 9).2 = [] := by
  constructor
  · have h := c5_input_queue_faithful.2.2.2.2.1 ⟨0, [5, 6, 7]⟩ [] 2
      (by decide) (by decide)
    simpa using h
  · have h := c5_input_queue_faithful.2.2.2.2.2 ⟨2, [5, 6, 7]⟩ [] 9
      (by decide) (by decide)
    simpa using h

namespace Data

theorem applyExt_needsDone (a : ExtAction) (s : Data) :
    (applyExt a s).needsDone = s.needsDone := by
  cases a with
  | feed b => by_cases hb : b.length = 0 <;> simp [applyExt, hb]
  | stop => rfl
  | spurious => rfl

theorem applyExt_messages (a : ExtAction) (s : Data) :
    (applyExt a s).messages = s.messages := by
  cases a with
  | feed b => by_cases hb : b.length = 0 <;> simp [applyExt, hb]
  | stop => rfl
  | spurious => rfl

/-- While the needs-done flag is down, the wait loop emits nothing and the
flag stays down, no matter which feeds, stops or spurious wakeups arrive. -/
theorem waitLoop_flag_down (ws : List ExtAction) (s : Data)
    (h : s.needsDone = false) :
    (waitLoop s ws).1.messages = s.messages ∧
    (waitLoop s ws).1.needsDone = false := by
  induction ws generalizing s with
  | nil =>
    by_cases hs : starving s = true <;>
      simp [waitLoop, hs, emitStarveDone, h]
  | cons w ws ih =>
    by_cases hs : starving s = true
    · have hd : emitStarveDone s = s := by simp [emitStarveDone, h]
      have h2 : (applyExt w s).needsDone = false := by
        rw [applyExt_needsDone]; exact h
      have := ih (applyExt w s) h2
      simp only [waitLoop, hs, if_true, hd]
      rw [this.1, applyExt_messages]
      exact ⟨rfl, this.2⟩
    · simp [waitLoop, hs, h]

/-- A starvation episode entered with the needs-done flag up emits exactly
one `Done` (as its first action, before blocking) and lowers the flag; no
wakeup sequence can make it emit another. -/
theorem waitLoop_flag_up (s : Data) (ws : List ExtAction)
    (hs : starving s = true) (h : s.needsDone = true) :
    (waitLoop s ws).1.messages = s.messages ++ [Message.Done] ∧
    (waitLoop s ws).1.needsDone = false := by
  have hd1 : (emitStarveDone s).messages = s.messages ++ [Message.Done] := by
    simp [emitStarveDone, h]
  have hd2 : (emitStarveDone s).needsDone = false := by
    simp [emitStarveDone, h]
  cases ws with
  | nil => simp only [waitLoop, hs, if_true]; exact ⟨hd1, hd2⟩
  | cons w ws =>
    simp only [waitLoop, hs, if_true]
    have h2 : (applyExt w (emitStarveDone s)).needsDone = false := by
      rw [applyExt_needsDone]; exact hd2
    have := waitLoop_flag_down ws (applyExt w (emitStarveDone s)) h2
    rw [this.1, applyExt_messages, hd1]
    exact ⟨rfl, this.2⟩

/-- Whenever the read callback actually supplies data (returns `Continue`),
it raises the needs-done flag, arming the next starvation episode. -/
theorem readCallback_continue_flag (s : Data) (want : Nat)
    (wakes : List ExtAction) (s1 : Data) (out : List Nat)
    (h : readCallback s want wakes = some (s1, out, ReadStatus.Continue)) :
    s1.needsDone = true := by
  unfold readCallback at h
  rcases hw : waitLoop s wakes with ⟨s2, b⟩
  rw [hw] at h
  cases b with
  | false => simp at h
  | true =>
    by_cases hst : s2.stopped
    · simp [hst] at h
    · simp only [hst, if_false, Bool.false_eq_true, if_neg, Option.some.injEq,
        Prod.mk.injEq] at h
      rw [← h.1]

end Data

/-- C2: For every contiguous starvation episode (the wait loop entered with
the queue empty and no stop requested) that follows a successful data
supply, exactly one `Done` message is queued — as the episode's only
message, never zero and never a second one, whatever feeds, stops or
spurious wakeups follow; the needs-done flag is raised exactly when the
read callback supplies data (`Continue`) and lowered exactly when the
`Done` is queued. -/
theorem c2_done_exactly_once :
    (∀ s ws, Data.starving s = true → s.needsDone = true →
        (Data.waitLoop s ws).1.messages = s.messages ++ [Data.Message.Done] ∧
        (Data.waitLoop s ws).1.needsDone = false) ∧
    (∀ s ws, s.needsDone = false →
        (Data.waitLoop s ws).1.messages = s.messages) ∧
    (∀ s want wakes s1 out,
        Data.readCallback s want wakes = some (s1, out, ReadStatus.Continue) →
        s1.needsDone = true) ∧
    (∀ s, s.needsDone = true →
        (Data.emitStarveDone s).messages = s.messages ++ [Data.Message.Done] ∧
        (Data.emitStarveDone s).needsDone = false) := by
  refine ⟨fun s ws hs h => Data.waitLoop_flag_up s ws hs h,
    fun s ws h => (Data.waitLoop_flag_down ws s h).1,
    fun s want wakes s1 out h =>
      Data.readCallback_continue_flag s want wakes s1 out h,
    fun s h => ⟨by simp [Data.emitStarveDone, h], by simp [Data.emitStarveDone, h]⟩⟩

/-- Witness for C2: a starved session owing a `Done` queues exactly that one
message even across a spurious wakeup, and a session with a queued chunk
comes back from the read callback with the needs-done flag up. -/
theorem c2_done_exactly_once_witness :
    (Data.waitLoop { Data.openData with needsDone := true }
        [Data.ExtAction.spurious]).1.messages
      = ([] : List Data.Message) ++ [Data.Message.Done] ∧
    ({ Data.openData with needsDone := true } : Data).needsDone = true := by
  constructor
  · exact (c2_done_exactly_once.1 { Data.openData with needsDone := true }
      [Data.ExtAction.spurious] (by decide) (by decide)).1
  · exact c2_done_exactly_once.2.2.1
      { Data.openData with inbuffers := [⟨0, [1, 2]⟩] } 4 []
      { Data.openData with needsDone := true } [1, 2]
      (by decide)

namespace Data

theorem Format.mk_eq_iff (a b c : Nat) (g : Format) :
    Format.mk a b c = g ↔ a = g.sampleRate ∧ b = g.channels ∧ c = g.bitsPerSample := by
  cases g
  simp [Format.mk.injEq]

/-- `Data::formatChanged` answers true exactly when the frame's normalized
format differs from the stored one. -/
theorem formatChanged_iff (s : Data) (f : Frame) :
    formatChanged s f = true ↔ frameFormat f ≠ s.currentFormat := by
  simp only [formatChanged, Bool.or_eq_true, bne_iff_ne, Ne, frameFormat,
    Format.mk_eq_iff, not_and_or]
  tauto

theorem writeCallback_messages (s : Data) (f : Frame) :
    (writeCallback s f).1.messages
      = s.messages
        ++ (if frameFormat f ≠ s.currentFormat
            then [Message.Format (frameFormat f)] else [])
        ++ (if (writeFrame f).isEmpty then []
            else [Message.Data (writeFrame f)]) := by
  unfold writeCallback
  by_cases hc : formatChanged s f
  · have hne := (formatChanged_iff s f).1 hc
    by_cases he : (writeFrame f).isEmpty <;>
      simp [hc, pushFormat, hne, he]
  · have heq : ¬ frameFormat f ≠ s.currentFormat := by
      rw [← formatChanged_iff]
      simpa using hc
    by_cases he : (writeFrame f).isEmpty <;>
      simp [hc, heq, he]

theorem writeCallback_currentFormat (s : Data) (f : Frame) :
    (writeCallback s f).1.currentFormat = frameFormat f := by
  unfold writeCallback
  by_cases hc : formatChanged s f
  · by_cases he : (writeFrame f).isEmpty <;> simp [hc, pushFormat, he]
  · have heq : frameFormat f = s.currentFormat := by
      by_contra hne
      exact hc ((formatChanged_iff s f).2 hne)
    by_cases he : (writeFrame f).isEmpty <;> simp [hc, he, heq]

theorem writeCallback_status (s : Data) (f : Frame) :
    (writeCallback s f).2 = WriteStatus.Continue := by
  unfold writeCallback
  by_cases hc : formatChanged s f <;>
    by_cases he : (writeFrame f).isEmpty <;> simp [hc, he]

theorem formatCount_append (a b : List Message) :
    formatCount (a ++ b) = formatCount a + formatCount b := by
  simp [formatCount, List.countP_append]

end Data

/-- C4: In `writeCallback`, a `Format` message is queued (and the stored
current format overwritten) exactly when the frame's
(sampleRate, channels, normalized bitsPerSample) tuple differs from the
session's current format, and it is queued before the frame's `Data`
message; after the callback the stored format always equals the frame's
tuple, so a consecutive frame with an unchanged tuple queues no second
`Format` message. -/
theorem c4_format_event_iff :
    (∀ s f, Data.formatChanged s f = true ↔ Data.frameFormat f ≠ s.currentFormat) ∧
    (∀ s f, (Data.writeCallback s f).1.messages
        = s.messages
          ++ (if Data.frameFormat f ≠ s.currentFormat
              then [Data.Message.Format (Data.frameFormat f)] else [])
          ++ (if (Data.writeFrame f).isEmpty then []
              else [Data.Message.Data (Data.writeFrame f)])) ∧
    (∀ s f, (Data.writeCallback s f).1.currentFormat = Data.frameFormat f) ∧
    (∀ s f, Data.formatCount
          (Data.writeCallback (Data.writeCallback s f).1 f).1.messages
        = Data.formatCount (Data.writeCallback s f).1.messages) := by
  refine ⟨Data.formatChanged_iff, Data.writeCallback_messages,
    Data.writeCallback_currentFormat, fun s f => ?_⟩
  rw [Data.writeCallback_messages (Data.writeCallback s f).1 f,
    Data.writeCallback_currentFormat s f]
  rw [if_neg (by simp)]
  by_cases he : (Data.writeFrame f).isEmpty <;>
    simp [he, Data.formatCount_append, Data.formatCount, Data.isFormatMsg]

/-- Witness for C4: a fresh session sees a 16-bit stereo frame as a format
change; re-presenting the same frame right after does not. -/
theorem c4_format_event_iff_witness :
    Data.frameFormat (⟨1, 2, 44100, 16, fun j _ => (j : Int) + 2⟩ : Frame)
      ≠ Data.openData.currentFormat ∧
    Data.formatCount
        (Data.writeCallback
          (Data.writeCallback Data.openData
            (⟨1, 2, 44100, 16, fun j _ => (j : Int) + 2⟩ : Frame)).1
          (⟨1, 2, 44100, 16, fun j _ => (j : Int) + 2⟩ : Frame)).1.messages
      = Data.formatCount
          (Data.writeCallback Data.openData
            (⟨1, 2, 44100, 16, fun j _ => (j : Int) + 2⟩ : Frame)).1.messages := by
  constructor
  · exact (c4_format_event_iff.1 Data.openData
      (⟨1, 2, 44100, 16, fun j _ => (j : Int) + 2⟩ : Frame)).1 (by decide)
  · exact c4_format_event_iff.2.2.2 Data.openData
      (⟨1, 2, 44100, 16, fun j _ => (j : Int) + 2⟩ : Frame)

namespace Data

/-- The switch of the write callback appends exactly the per-sample layout
described by `specSampleBytes`. -/
theorem writeSample_eq (bps : Nat) (v : Int) (acc : List Nat) :
    writeSample bps v acc = acc ++ specSampleBytes bps v := by
  by_cases h8 : bps = 8
  · subst h8; rfl
  by_cases h16 : bps = 16
  · subst h16; rfl
  by_cases h24 : bps = 24
  · subst h24; rfl
  by_cases h32 : bps = 32
  · subst h32; rfl
  simp [writeSample, specSampleBytes, h8, h16, h24, h32]

theorem foldl_append_flatMap {α β : Type} (l : List α) (g : α → List β)
    (acc : List β) :
    l.foldl (fun a x => a ++ g x) acc = acc ++ l.flatMap g := by
  induction l generalizing acc with
  | nil => simp
  | cons a t ih => simp [List.flatMap_cons, ih, List.append_assoc]

/-- The imperative nested write loop produces the flat sample-major,
channel-minor concatenation of per-sample layouts. -/
theorem writeLoop_eq (f : Frame) : writeLoop f = specFramePayload f := by
  unfold writeLoop specFramePayload
  simp only [writeSample_eq, foldl_append_flatMap, List.nil_append]

theorem specSampleBytes_length (bps : Nat) (v : Int)
    (h : bps = 8 ∨ bps = 16 ∨ bps = 24 ∨ bps = 32) :
    (specSampleBytes bps v).length = normBps bps / 8 := by
  rcases h with h | h | h | h <;> subst h <;> simp [specSampleBytes, normBps]

theorem flatMap_const_length {α β : Type} (l : List α) (g : α → List β)
    (k : Nat) (h : ∀ x ∈ l, (g x).length = k) :
    (l.flatMap g).length = l.length * k := by
  induction l with
  | nil => simp
  | cons a t ih =>
    simp only [List.flatMap_cons, List.length_append, List.length_cons,
      h a (List.mem_cons_self a t),
      ih (fun x hx => h x (List.mem_cons_of_mem a hx))]
    ring

theorem specFramePayload_length (f : Frame)
    (h : f.bitsPerSample = 8 ∨ f.bitsPerSample = 16 ∨ f.bitsPerSample = 24
      ∨ f.bitsPerSample = 32) :
    (specFramePayload f).length
      = f.blocksize * f.channels * (normBps f.bitsPerSample / 8) := by
  unfold specFramePayload
  rw [flatMap_const_length _ _ (f.channels * (normBps f.bitsPerSample / 8))
    (fun i _ => by
      rw [flatMap_const_length _ _ (normBps f.bitsPerSample / 8)
        (fun j _ => specSampleBytes_length f.bitsPerSample (f.samples j i) h),
        List.length_range])]
  simp [List.length_range, Nat.mul_assoc]

/-- For a handled bit depth the loop fills the pre-sized buffer exactly, so
no zero padding remains. -/
theorem writeFrame_eq (f : Frame)
    (h : f.bitsPerSample = 8 ∨ f.bitsPerSample = 16 ∨ f.bitsPerSample = 24
      ∨ f.bitsPerSample = 32) :
    writeFrame f = specFramePayload f := by
  unfold writeFrame
  rw [writeLoop_eq, specFramePayload_length f h]
  simp

end Data

/-- C1 counterexample: the claim says every 24-bit sample occupies 4
payload bytes whose high (4th) byte is zero.  For the 24-bit sample value
65536 the emitted payload is `[0, 0, 0, 1]`: the code writes the zero into
the FIRST (low) byte and the sample's top byte `1` lands in the 4th
position, so the high byte is 1, not 0. -/
theorem c1_payload_high_byte_counterexample :
    (Data.writeCallback
        { Data.openData with
            currentFormat := Data.frameFormat
              (⟨1, 1, 44100, 24, fun _ _ => 65536⟩ : Frame) }
        (⟨1, 1, 44100, 24, fun _ _ => 65536⟩ : Frame)).1.messages
      = [Data.Message.Data [0, 0, 0, 1]] ∧
    ([0, 0, 0, 1].getD 3 0 : Nat) ≠ 0 := by
  constructor
  · rfl
  · decide

/-- C1 (amended): the Data payload of a decoded frame with a handled bit
depth (8, 16, 24 or 32) is the channel-interleaved samples in little-endian
layout, ordered sample-major / channel-minor, 1 byte per 8-bit sample,
2 bytes per 16-bit sample, 4 bytes per 32-bit sample, and 4 bytes per
24-bit sample whose FIRST (least-significant) byte is zero followed by the
sample's three little-endian bytes (the value shifted up by 8 bits), the
total length being blocksize * channels * (normalizedBitDepth / 8). -/
theorem c1_payload_layout :
    (∀ f : Frame, f.bitsPerSample = 8 ∨ f.bitsPerSample = 16
        ∨ f.bitsPerSample = 24 ∨ f.bitsPerSample = 32 →
        Data.writeFrame f = specFramePayload f ∧
        (Data.writeFrame f).length
          = f.blocksize * f.channels * (Data.normBps f.bitsPerSample / 8)) ∧
    (∀ s f, f.bitsPerSample = 8 ∨ f.bitsPerSample = 16
        ∨ f.bitsPerSample = 24 ∨ f.bitsPerSample = 32 →
        (Data.writeCallback s f).1.messages
          = s.messages
            ++ (if Data.frameFormat f ≠ s.currentFormat
                then [Data.Message.Format (Data.frameFormat f)] else [])
            ++ (if (specFramePayload f).isEmpty then []
                else [Data.Message.Data (specFramePayload f)])) ∧
    (∀ v, specSampleBytes 8 v = [Data.byteOf v 0]) ∧
    (∀ v, specSampleBytes 16 v = [Data.byteOf v 0, Data.byteOf v 1]) ∧
    (∀ v, specSampleBytes 24 v
        = [0, Data.byteOf v 0, Data.byteOf v 1, Data.byteOf v 2]) ∧
    (∀ v, specSampleBytes 32 v
        = [Data.byteOf v 0, Data.byteOf v 1, Data.byteOf v 2, Data.byteOf v 3]) := by
  refine ⟨fun f h => ⟨Data.writeFrame_eq f h, ?_⟩, fun s f h => ?_,
    fun v => rfl, fun v => rfl, fun v => rfl, fun v => rfl⟩
  · rw [Data.writeFrame_eq f h]
    exact Data.specFramePayload_length f h
  · rw [Data.writeCallback_messages s f, Data.writeFrame_eq f h]

/-- Witness for C1 at a 16-bit stereo frame: the payload interleaves the
two channels little-endian, preceded by the initial `Format` message. -/
theorem c1_payload_layout_witness :
    Data.writeFrame (⟨1, 2, 44100, 16, fun j _ => (j : Int) + 2⟩ : Frame)
      = specFramePayload (⟨1, 2, 44100, 16, fun j _ => (j : Int) + 2⟩ : Frame) ∧
    (Data.writeCallback Data.openData
        (⟨1, 2, 44100, 16, fun j _ => (j : Int) + 2⟩ : Frame)).1.messages
      = [Data.Message.Format ⟨44100, 2, 16⟩, Data.Message.Data [2, 0, 3, 0]] := by
  constructor
  · exact (c1_payload_layout.1
      (⟨1, 2, 44100, 16, fun j _ => (j : Int) + 2⟩ : Frame)
      (Or.inr (Or.inl rfl))).1
  · rfl

namespace Data

theorem specSampleBytes_unhandled (bps : Nat) (v : Int)
    (h8 : bps ≠ 8) (h16 : bps ≠ 16) (h24 : bps ≠ 24) (h32 : bps ≠ 32) :
    specSampleBytes bps v = [] := by
  simp [specSampleBytes, h8, h16, h24, h32]

theorem specFramePayload_unhandled (f : Frame)
    (h8 : f.bitsPerSample ≠ 8) (h16 : f.bitsPerSample ≠ 16)
    (h24 : f.bitsPerSample ≠ 24) (h32 : f.bitsPerSample ≠ 32) :
    specFramePayload f = [] := by
  rw [← List.length_eq_zero]
  unfold specFramePayload
  rw [flatMap_const_length _ _ 0 (fun i _ => by
    rw [flatMap_const_length _ _ 0 (fun j _ => by
      rw [specSampleBytes_unhandled _ _ h8 h16 h24 h32]; rfl)]
    simp)]
  simp

/-- For an unhandled bit depth the loop writes nothing, so the whole
pre-sized buffer of zeros is emitted as-is (and 24 does not apply, so the
normalized depth is the raw depth). -/
theorem writeFrame_unhandled (f : Frame)
    (h8 : f.bitsPerSample ≠ 8) (h16 : f.bitsPerSample ≠ 16)
    (h24 : f.bitsPerSample ≠ 24) (h32 : f.bitsPerSample ≠ 32) :
    writeFrame f = List.replicate
      (f.blocksize * f.channels * (f.bitsPerSample / 8)) 0 := by
  unfold writeFrame
  rw [writeLoop_eq, specFramePayload_unhandled f h8 h16 h24 h32]
  simp [normBps, h24]

end Data

/-- C10 counterexample: at bits_per_sample 4 (not one of 8/16/24/32) with
blocksize 1 and 1 channel, the payload size is 1*1*(4/8) = 0 bytes and the
write callback queues NO `Data` message at all — the claim's promised Data
event does not happen. -/
theorem c10_low_depth_counterexample :
    (Data.writeCallback { Data.openData with currentFormat := ⟨44100, 1, 4⟩ }
        (⟨1, 1, 44100, 4, fun _ _ => 3⟩ : Frame)).1.messages = [] ∧
    ((4 : Nat) ≠ 8 ∧ (4 : Nat) ≠ 16 ∧ (4 : Nat) ≠ 24 ∧ (4 : Nat) ≠ 32) ∧
    (1 : Nat) ≠ 0 := by
  refine ⟨rfl, by decide, by decide⟩

/-- C10 (amended): for a frame whose bits_per_sample is none of 8/16/24/32,
the write loop writes no sample bytes, so the payload is the untouched
zero buffer of blocksize * channels * (bitsPerSample / 8) bytes.  When
8 ≤ bitsPerSample (so that size is positive for nonzero blocksize and
channels, e.g. 12 or 20) a `Data` event carrying that all-zero buffer is
still emitted and the callback returns continue; when bitsPerSample < 8
the buffer is empty and no `Data` event is emitted. -/
theorem c10_unhandled_depth :
    (∀ f : Frame, f.bitsPerSample ≠ 8 → f.bitsPerSample ≠ 16 →
        f.bitsPerSample ≠ 24 → f.bitsPerSample ≠ 32 →
        Data.writeFrame f = List.replicate
          (f.blocksize * f.channels * (f.bitsPerSample / 8)) 0) ∧
    (∀ s f, f.bitsPerSample ≠ 8 → f.bitsPerSample ≠ 16 →
        f.bitsPerSample ≠ 24 → f.bitsPerSample ≠ 32 →
        8 ≤ f.bitsPerSample → 0 < f.blocksize → 0 < f.channels →
        (Data.writeCallback s f).1.messages
          = s.messages
            ++ (if Data.frameFormat f ≠ s.currentFormat
                then [Data.Message.Format (Data.frameFormat f)] else [])
            ++ [Data.Message.Data (List.replicate
                (f.blocksize * f.channels * (f.bitsPerSample / 8)) 0)] ∧
        (Data.writeCallback s f).2 = WriteStatus.Continue) ∧
    (∀ s f, f.bitsPerSample ≠ 8 → f.bitsPerSample ≠ 16 →
        f.bitsPerSample ≠ 24 → f.bitsPerSample ≠ 32 →
        f.bitsPerSample < 8 →
        (Data.writeCallback s f).1.messages
          = s.messages
            ++ (if Data.frameFormat f ≠ s.currentFormat
                then [Data.Message.Format (Data.frameFormat f)] else [])) := by
  refine ⟨Data.writeFrame_unhandled, fun s f h8 h16 h24 h32 hge hb hc => ?_,
    fun s f h8 h16 h24 h32 hlt => ?_⟩
  · have hsz : 0 < f.blocksize * f.channels * (f.bitsPerSample / 8) := by
      have : 0 < f.bitsPerSample / 8 := by
        apply Nat.div_pos hge
        norm_num
      exact Nat.mul_pos (Nat.mul_pos hb hc) this
    obtain ⟨m, hm⟩ : ∃ m,
        f.blocksize * f.channels * (f.bitsPerSample / 8) = m + 1 :=
      ⟨f.blocksize * f.channels * (f.bitsPerSample / 8) - 1, by omega⟩
    have hie : (Data.writeFrame f).isEmpty = false := by
      rw [Data.writeFrame_unhandled f h8 h16 h24 h32, hm]
      rfl
    constructor
    · rw [Data.writeCallback_messages s f, hie,
        Data.writeFrame_unhandled f h8 h16 h24 h32]
      simp
    · exact Data.writeCallback_status s f
  · have hz : f.bitsPerSample / 8 = 0 := Nat.div_eq_of_lt hlt
    have hie : (Data.writeFrame f).isEmpty = true := by
      rw [Data.writeFrame_unhandled f h8 h16 h24 h32, hz]
      rfl
    rw [Data.writeCallback_messages s f, hie]
    simp

/-- Witness for C10 at a 12-bit mono frame of one sample: one `Data`
message with a single zero byte is emitted, after the initial `Format`
message of the fresh session. -/
theorem c10_unhandled_depth_witness :
    (Data.writeCallback Data.openData
        (⟨1, 1, 8000, 12, fun _ _ => 5⟩ : Frame)).1.messages
      = [Data.Message.Format ⟨8000, 1, 12⟩, Data.Message.Data [0]] := by
  have h := (c10_unhandled_depth.2.1 Data.openData
      (⟨1, 1, 8000, 12, fun _ _ => 5⟩ : Frame)
      (by decide) (by decide) (by decide) (by decide)
      (by decide) (by decide) (by decide)).1
  simpa [Data.frameFormat, Data.normBps, Data.openData] using h

namespace Data

/-- An entry with no `=` anywhere is dropped by the split (memchr finds
nothing). -/
theorem splitEntry_no_eq (e : List Char) (h : ∀ c ∈ e, c ≠ '=') :
    splitEntry e = none := by
  unfold splitEntry
  have he : e.findIdx? (fun c => c == '=') = none := by
    rw [List.findIdx?_eq_none_iff]
    intro c hc
    simpa using h c hc
  rw [he]

theorem findIdx?_first_eq (k v : List Char) (h : ∀ c ∈ k, c ≠ '=') :
    (k ++ '=' :: v).findIdx? (fun c => c == '=') = some k.length := by
  induction k with
  | nil => simp
  | cons a t ih =>
    have ha : (a == '=') = false := by
      simpa using h a (List.mem_cons_self a t)
    simp only [List.cons_append, List.findIdx?_cons, ha, Bool.false_eq_true,
      if_false, List.findIdx?_start_succ,
      ih (fun c hc => h c (List.mem_cons_of_mem a hc))]
    simp

/-- The split really is on the FIRST `=`: everything before it becomes the
key, everything after it (further `=` included) becomes the value. -/
theorem splitEntry_first (k v : List Char) (h : ∀ c ∈ k, c ≠ '=') :
    splitEntry (k ++ '=' :: v) = some (k, v) := by
  unfold splitEntry
  rw [findIdx?_first_eq k v h]
  have ht : (k ++ '=' :: v).take k.length = k := List.take_left k ('=' :: v)
  have hd : (k ++ '=' :: v).drop (k.length + 1) = v := by
    have hsplit : k ++ '=' :: v = (k ++ ['=']) ++ v := by simp
    rw [hsplit]
    exact List.drop_left' (by simp)
  dsimp only
  rw [ht, hd]

end Data

/-- C8: Tag entries are split on the first `=` only — "ARTIST=Foo=Bar"
yields key "ARTIST" and value "Foo=Bar", an entry with no `=` is dropped —
and a vorbis-comment block produces exactly one `Metadata` message carrying
the surviving pairs in order (vendor string first, then the comments in
block order), while any other metadata block type produces nothing. -/
theorem c8_tag_split_first_eq :
    Data.splitEntry "ARTIST=Foo=Bar".toList
      = some ("ARTIST".toList, "Foo=Bar".toList) ∧
    (∀ e, (∀ c ∈ e, c ≠ '=') → Data.splitEntry e = none) ∧
    (∀ k v, (∀ c ∈ k, c ≠ '=') →
        Data.splitEntry (k ++ '=' :: v) = some (k, v)) ∧
    (∀ s vendor comments,
        Data.metadataCallback s (StreamMetadata.vorbisComment vendor comments)
          = { s with
                messages := s.messages
                  ++ [Data.Message.Metadata
                        ⟨(vendor :: comments).filterMap Data.splitEntry⟩],
                asyncSends := s.asyncSends + 1 }) ∧
    (∀ s t, Data.metadataCallback s (StreamMetadata.other t) = s) := by
  refine ⟨by decide, Data.splitEntry_no_eq, Data.splitEntry_first,
    fun s vendor comments => rfl, fun s t => rfl⟩

/-- Witness for C8: an entry without `=` is dropped; a one-`=` entry splits
into key and value. -/
theorem c8_tag_split_first_eq_witness :
    Data.splitEntry "TITLE".toList = none ∧
    Data.splitEntry ("K".toList ++ '=' :: "V".toList)
      = some ("K".toList, "V".toList) := by
  constructor
  · exact c8_tag_split_first_eq.2.1 "TITLE".toList (by decide)
  · exact c8_tag_split_first_eq.2.2.1 "K".toList "V".toList (by decide)

/-- C9 counterexample: a vorbis-comment block whose (nonempty) vendor
string "libFLAC 1.3.2" contains no `=` emits a `Metadata` message whose tag
list is EMPTY — the vendor string is dropped, not included as its own
pair as the claim states. -/
theorem c9_vendor_dropped_counterexample :
    (Data.metadataCallback Data.openData
        (StreamMetadata.vorbisComment "libFLAC 1.3.2".toList [])).messages
      = [Data.Message.Metadata ⟨[]⟩] ∧
    '=' ∉ "libFLAC 1.3.2".toList ∧
    "libFLAC 1.3.2".toList ≠ [] := by
  refine ⟨by decide, by decide, by decide⟩

/-- C9 (amended): the vendor string goes through the same first-`=` split
as every comment entry: it is included — as the FIRST pair of the emitted
`Metadata` tag list — exactly when it contains an `=`; a vendor string
without `=` is dropped and only the comments' surviving pairs are
emitted. -/
theorem c9_vendor_tag_conditional :
    (∀ s vendor comments k v, Data.splitEntry vendor = some (k, v) →
        Data.metadataCallback s (StreamMetadata.vorbisComment vendor comments)
          = { s with
                messages := s.messages
                  ++ [Data.Message.Metadata
                        ⟨(k, v) :: comments.filterMap Data.splitEntry⟩],
                asyncSends := s.asyncSends + 1 }) ∧
    (∀ s vendor comments, Data.splitEntry vendor = none →
        Data.metadataCallback s (StreamMetadata.vorbisComment vendor comments)
          = { s with
                messages := s.messages
                  ++ [Data.Message.Metadata
                        ⟨comments.filterMap Data.splitEntry⟩],
                asyncSends := s.asyncSends + 1 }) := by
  constructor
  · intro s vendor comments k v h
    unfold Data.metadataCallback
    dsimp only
    rw [List.filterMap_cons_some h]
  · intro s vendor comments h
    unfold Data.metadataCallback
    dsimp only
    rw [List.filterMap_cons_none h]

/-- Witness for C9: a vendor string of the form "VENDOR=flac" appears as
the first (and only) tag pair. -/
theorem c9_vendor_tag_conditional_witness :
    Data.metadataCallback Data.openData
        (StreamMetadata.vorbisComment "VENDOR=flac".toList [])
      = { Data.openData with
            messages := [Data.Message.Metadata
              ⟨[("VENDOR".toList, "flac".toList)]⟩],
            asyncSends := 1 } := by
  have h := c9_vendor_tag_conditional.1 Data.openData "VENDOR=flac".toList []
    "VENDOR".toList "flac".toList (by decide)
  simpa [Data.openData] using h

namespace Data

theorem eosExit_messages_up (s : Data) (h : s.needsDone = true) :
    (eosExit s).messages = s.messages ++ [Message.Done, Message.End] := by
  simp [eosExit, h]

theorem eosExit_messages_down (s : Data) (h : s.needsDone = false) :
    (eosExit s).messages = s.messages ++ [Message.End] := by
  simp [eosExit, h]

theorem eosExit_sends (s : Data) :
    (eosExit s).asyncSends = s.asyncSends + 1 := by
  by_cases h : s.needsDone <;> simp [eosExit, h]

theorem eosExit_last (s : Data) :
    ∃ t, (eosExit s).messages = t ++ [Message.End] := by
  by_cases h : s.needsDone
  · exact ⟨s.messages ++ [Message.Done], by simp [eosExit, h]⟩
  · exact ⟨s.messages, by simp [eosExit, h]⟩

/-- The worker loop only produces a final state whose last queued message
is `End` whenever it exits without the stop flag set. -/
theorem flacThread_end_last (s : Data) (steps : List DecodeStep) (s1 : Data)
    (h : flacThread s steps = some s1) (hns : s1.stopped = false) :
    ∃ t, s1.messages = t ++ [Message.End] := by
  induction steps generalizing s with
  | nil => simp [flacThread] at h
  | cons st rest ih =>
    unfold flacThread at h
    by_cases hstop : (applyStep s st).stopped = true
    · rw [if_pos hstop] at h
      obtain rfl : applyStep s st = s1 := Option.some.inj h
      rw [hns] at hstop
      exact absurd hstop (by simp)
    · rw [if_neg hstop] at h
      by_cases heos : st.eos = true
      · rw [if_pos heos] at h
        obtain rfl : eosExit (applyStep s st) = s1 := Option.some.inj h
        exact eosExit_last _
      · rw [if_neg heos] at h
        exact ih _ h

theorem endCount_append (a b : List Message) :
    endCount (a ++ b) = endCount a + endCount b := by
  simp [endCount, List.countP_append]

/-- If neither the prior messages nor any decode step's callbacks carry an
`End`, a non-stopped exit of the worker loop queues exactly one `End`. -/
theorem flacThread_one_end (s : Data) (steps : List DecodeStep) (s1 : Data)
    (h : flacThread s steps = some s1) (hns : s1.stopped = false)
    (hs : endCount s.messages = 0)
    (hsteps : ∀ st ∈ steps, endCount st.appended = 0) :
    endCount s1.messages = 1 := by
  induction steps generalizing s with
  | nil => simp [flacThread] at h
  | cons st rest ih =>
    have happ : endCount (applyStep s st).messages = 0 := by
      have h1 := hsteps st (List.mem_cons_self st rest)
      show endCount (s.messages ++ st.appended) = 0
      rw [endCount_append, hs, h1]
    unfold flacThread at h
    by_cases hstop : (applyStep s st).stopped = true
    · rw [if_pos hstop] at h
      obtain rfl : applyStep s st = s1 := Option.some.inj h
      rw [hns] at hstop
      exact absurd hstop (by simp)
    · rw [if_neg hstop] at h
      by_cases heos : st.eos = true
      · rw [if_pos heos] at h
        obtain rfl : eosExit (applyStep s st) = s1 := Option.some.inj h
        by_cases hnd : (applyStep s st).needsDone
        · rw [eosExit_messages_up _ hnd, endCount_append, happ]
          rfl
        · rw [eosExit_messages_down _ (by simpa using hnd), endCount_append, happ]
          rfl
      · rw [if_neg heos] at h
        exact ih _ h happ (fun x hx => hsteps x (List.mem_cons_of_mem st hx))

/-- When a decode step ends with the decoder at end-of-stream and the stop
flag still clear, the loop exits right there — whatever further steps might
have followed are never taken. -/
theorem flacThread_eos_step (s : Data) (st : DecodeStep)
    (rest : List DecodeStep) (hstop : (applyStep s st).stopped = false)
    (heos : st.eos = true) :
    flacThread s (st :: rest) = some (eosExit (applyStep s st)) := by
  unfold flacThread
  rw [if_neg (by simp [hstop]), if_pos heos]

end Data

/-- C3: Whenever the worker loop exits without the session being stopped,
the final message queue ends in `End`; if neither the session nor any
decode step had already queued an `End`, exactly one `End` is queued in
total; on the end-of-stream exit the loop stops right at that step (later
steps are never taken), first flushing the owed `Done` (exactly when the
needs-done flag is up), then queuing `End` and sending exactly one
consumer notification. -/
theorem c3_end_terminal :
    (∀ s steps s1, Data.flacThread s steps = some s1 → s1.stopped = false →
        ∃ t, s1.messages = t ++ [Data.Message.End]) ∧
    (∀ s steps s1, Data.flacThread s steps = some s1 → s1.stopped = false →
        Data.endCount s.messages = 0 →
        (∀ st ∈ steps, Data.endCount st.appended = 0) →
        Data.endCount s1.messages = 1) ∧
    (∀ s st rest, (Data.applyStep s st).stopped = false → st.eos = true →
        Data.flacThread s (st :: rest)
          = some (Data.eosExit (Data.applyStep s st))) ∧
    (∀ s : Data, s.needsDone = true →
        (Data.eosExit s).messages
          = s.messages ++ [Data.Message.Done, Data.Message.End]) ∧
    (∀ s : Data, s.needsDone = false →
        (Data.eosExit s).messages = s.messages ++ [Data.Message.End]) ∧
    (∀ s : Data, (Data.eosExit s).asyncSends = s.asyncSends + 1) :=
  ⟨Data.flacThread_end_last, Data.flacThread_one_end, Data.flacThread_eos_step,
    Data.eosExit_messages_up, Data.eosExit_messages_down, Data.eosExit_sends⟩

/-- Witness for C3: one decode step that raises needs-done and hits
end-of-stream makes the loop exit with exactly `[Done, End]` queued — even
though further steps were listed, they are not taken. -/
theorem c3_end_terminal_witness :
    Data.flacThread Data.openData
        [⟨[], true, false, [], ⟨0, 0, 0⟩, 0, true⟩,
         ⟨[Data.Message.Done], false, false, [], ⟨0, 0, 0⟩, 3, false⟩]
      = some (Data.eosExit
          (Data.applyStep Data.openData ⟨[], true, false, [], ⟨0, 0, 0⟩, 0, true⟩)) ∧
    (Data.eosExit
        (Data.applyStep Data.openData
          ⟨[], true, false, [], ⟨0, 0, 0⟩, 0, true⟩)).messages
      = [Data.Message.Done, Data.Message.End] := by
  constructor
  · exact c3_end_terminal.2.2.1 Data.openData
      ⟨[], true, false, [], ⟨0, 0, 0⟩, 0, true⟩
      [⟨[Data.Message.Done], false, false, [], ⟨0, 0, 0⟩, 3, false⟩]
      (by decide) (by decide)
  · have h := c3_end_terminal.2.2.2.1
      (Data.applyStep Data.openData ⟨[], true, false, [], ⟨0, 0, 0⟩, 0, true⟩)
      (by decide)
    simpa using h

namespace Data

theorem close_decoder_false (s : Data) : (close s).decoder = false := by
  by_cases hd : s.decoder = false <;> simp [close, hd]

theorem close_noop (s : Data) (h : s.decoder = false) : close s = s := by
  simp [close, h]

theorem close_idem (s : Data) : close (close s) = close s :=
  close_noop (close s) (close_decoder_false s)

theorem close_open_effects (s : Data) (hd : s.decoder = true)
    (hs : s.stopped = false) :
    (close s).stopped = true ∧ (close s).joined = s.joined + 1 ∧
    (close s).condSignals = s.condSignals + 1 ∧
    (close s).freed = s.freed + 1 ∧ (close s).decoder = false ∧
    (close s).openCount = s.openCount - 1 := by
  simp [close, hd, hs]

/-- Delivering messages never revives a released decoder: once an acc with
a null decoder is reached, the rest of the delivery fold leaves it
untouched. -/
theorem deliverFold_noop (l : List Message) (init : Data)
    (h : init.decoder = false) :
    l.foldl
      (fun acc m =>
        match m with
        | Message.End => close acc
        | _ => acc)
      init = init := by
  induction l generalizing init with
  | nil => rfl
  | cons m t ih =>
    cases m with
    | End =>
      show t.foldl _ (close init) = init
      rw [close_noop init h]
      exact ih init h
    | Format fmt => exact ih init h
    | Metadata meta => exact ih init h
    | Data bytes => exact ih init h
    | Done => exact ih init h

/-- If an `End` is among the delivered messages, the delivery fold ends
with the decoder released. -/
theorem deliverFold_end (l : List Message) (init : Data)
    (h : Message.End ∈ l) :
    (l.foldl
      (fun acc m =>
        match m with
        | Message.End => close acc
        | _ => acc)
      init).decoder = false := by
  induction l generalizing init with
  | nil => simp at h
  | cons m t ih =>
    by_cases hm : m = Message.End
    · subst hm
      show (t.foldl _ (close init)).decoder = false
      by_cases ht : Message.End ∈ t
      · exact ih (close init) ht
      · rw [deliverFold_noop t (close init) (close_decoder_false init)]
        exact close_decoder_false init
    · have ht : Message.End ∈ t := by
        rcases List.mem_cons.1 h with h1 | h1
        · exact absurd h1.symm hm
        · exact h1
      cases m with
      | End => exact absurd rfl hm
      | Format fmt => exact ih init ht
      | Metadata meta => exact ih init ht
      | Data bytes => exact ih init ht
      | Done => exact ih init ht

theorem asyncCallback_end_decoder (s : Data) (h : Message.End ∈ s.messages) :
    (asyncCallback s).1.decoder = false :=
  deliverFold_end s.messages { s with messages := [] } h

end Data

/-- C6: `close` is idempotent — the second call (in particular an explicit
close after an `End` delivery already ran teardown) is a complete no-op:
no second thread join, no second decoder release, no state change at all —
while the first close of an open, unstopped session sets the stop flag,
signals the worker once, joins the thread once and releases the decoder. -/
theorem c6_close_idempotent :
    (∀ s, Data.close (Data.close s) = Data.close s) ∧
    (∀ s : Data, s.decoder = false → Data.close s = s) ∧
    (∀ s : Data, s.decoder = true → s.stopped = false →
        (Data.close s).stopped = true ∧
        (Data.close s).joined = s.joined + 1 ∧
        (Data.close s).condSignals = s.condSignals + 1 ∧
        (Data.close s).freed = s.freed + 1 ∧
        (Data.close s).decoder = false ∧
        (Data.close s).openCount = s.openCount - 1) ∧
    (∀ s : Data, Data.Message.End ∈ s.messages →
        Data.close (Data.asyncCallback s).1 = (Data.asyncCallback s).1) := by
  refine ⟨Data.close_idem, Data.close_noop, Data.close_open_effects,
    fun s h => Data.close_noop _ (Data.asyncCallback_end_decoder s h)⟩

/-- Witness for C6: closing a fresh open session joins and frees exactly
once; after an `End` delivery already closed the session, an explicit
close changes nothing. -/
theorem c6_close_idempotent_witness :
    ((Data.close Data.openData).stopped = true ∧
      (Data.close Data.openData).joined = 0 + 1 ∧
      (Data.close Data.openData).condSignals = 0 + 1 ∧
      (Data.close Data.openData).freed = 0 + 1 ∧
      (Data.close Data.openData).decoder = false ∧
      (Data.close Data.openData).openCount = 1 - 1) ∧
    Data.close
        (Data.asyncCallback
          { Data.openData with messages := [Data.Message.End] }).1
      = (Data.asyncCallback
          { Data.openData with messages := [Data.Message.End] }).1 := by
  constructor
  · exact c6_close_idempotent.2.2.1 Data.openData rfl rfl
  · exact c6_close_idempotent.2.2.2
      { Data.openData with messages := [Data.Message.End] } (by decide)

/-- C7: `Feed` on a session whose decoder handle is null (after an explicit
close, or after the `End` delivery released it) reports the usage error
"Decoder not open" and returns the session completely unchanged — no queue
mutation, no signal; in particular this holds for any closed session
`Data.close s`. -/
theorem c7_feed_after_close :
    (∀ s arg, s.decoder = false →
        Feed s arg = (s, some FeedError.decoderNotOpen)) ∧
    (∀ s arg, Feed (Data.close s) arg
        = (Data.close s, some FeedError.decoderNotOpen)) := by
  constructor
  · intro s arg h
    simp [Feed, h]
  · intro s arg
    simp [Feed, Data.close_decoder_false s]

/-- Witness for C7: feeding two bytes to a session whose decoder handle is
null fails with the usage error and leaves the session as it was, and the
same holds for an explicitly closed fresh session. -/
theorem c7_feed_after_close_witness :
    Feed { Data.openData with decoder := false } (some [1, 2])
      = ({ Data.openData with decoder := false },
         some FeedError.decoderNotOpen) ∧
    Feed (Data.close Data.openData) (some [1, 2])
      = (Data.close Data.openData, some FeedError.decoderNotOpen) :=
  ⟨c7_feed_after_close.1 { Data.openData with decoder := false }
      (some [1, 2]) rfl,
   c7_feed_after_close.2 Data.openData (some [1, 2])⟩
